import Mathlib

/-!
Verification of the ImportFinder import-resolution engine.

This file gives a shallow embedding of the TypeScript sources
(`src/extractors/java.ts`, `src/plugins/javascript.ts`,
`src/extractors/extractors.util.ts`, `src/extractors/extractorDispatcher.ts`,
`src/main.ts`) as executable Lean definitions over `List Char` strings, and
proves or refutes the frozen specification claims about them.
-/

/-- Strings are modelled as lists of characters. -/
abbrev Str := List Char

namespace ImportFinder

/-- The output record of the engine (src/types.ts, `ImportStatement`). -/
structure ImportStatement where
  file : Str
  projectPath : Str
  importedEntity : Str
  modifiers : List Str
  language : Str
  library : Str
  fullImport : Str
deriving DecidableEq, Repr

/-- Lookup in an insertion-ordered association list, modelling
`Map.prototype.get` of a JS `Map`. -/
def mapGet {V : Type} (m : List (Str × V)) (k : Str) : Option V :=
  (m.find? (fun kv => kv.1 == k)).map (fun kv => kv.2)

/-- Insertion as `Map.prototype.set`: overwrite in place if the key exists, else append
(JS maps preserve insertion order). -/
def mapSet {V : Type} (m : List (Str × V)) (k : Str) (v : V) : List (Str × V) :=
  if (m.map (fun kv => kv.1)).contains k then
    m.map (fun kv => if kv.1 == k then (k, v) else kv)
  else
    m ++ [(k, v)]

/-- Split a character list on a separator character, as JS
`String.prototype.split(sep)` for a one-character separator. -/
def splitOnSepAux (sep : Char) : Str → Str → List Str
  | [], acc => [acc.reverse]
  | c :: cs, acc =>
      if c = sep then acc.reverse :: splitOnSepAux sep cs []
      else splitOnSepAux sep cs (c :: acc)

def splitOnSep (sep : Char) (s : Str) : List Str :=
  splitOnSepAux sep s []

/-! ### src/extractors/extractors.util.ts -/

/-- Embeds `getRelativePathToRepo`: strip the repo path (guarded by `startsWith`,
so `replace` removes the leading occurrence) and one leading slash. -/
def getRelativePathToRepo (repoPath filePath : Str) : Str :=
  if repoPath.isPrefixOf filePath then
    let stripped := filePath.drop repoPath.length
    match stripped with
    | '/' :: rest => rest
    | other => other
  else filePath

/-- The path with trailing separators removed (helper for `basename`). -/
def basenameTrimmed (p : Str) : Str :=
  (p.reverse.dropWhile (fun c => c = '/')).reverse

/-- Node's `path.basename` on POSIX paths: drop trailing separators, then
take everything after the last remaining separator.  A path consisting only
of separators has basename `"/"`; the empty path has basename `""`. -/
def basename (p : Str) : Str :=
  if (basenameTrimmed p).isEmpty then (if p.isEmpty then [] else [('/')])
  else ((basenameTrimmed p).reverse.takeWhile (fun c => ¬ c = '/')).reverse

/-- Embeds `isIgnored` from extractors.util.ts: a file is ignored when some path
segment equals an excluded-directory entry, or its basename literally ends
with one of the pattern strings. -/
def isIgnored (file : Str) (excludedDirectories excludedFilePatterns : List Str) : Bool :=
  ((splitOnSep ('/') file).any (fun dir => excludedDirectories.contains dir)) ||
    (excludedFilePatterns.any (fun pat => pat.isSuffixOf (basename file)))

/-- Embeds `findProjectPath`: longest project path that is a string prefix of the
file path, the empty string when none qualifies. -/
def findProjectPath (filePath : Str) (projectPaths : List Str) : Str :=
  projectPaths.foldl
    (fun bestMatch projectPath =>
      if projectPath.isPrefixOf filePath then
        if bestMatch.isEmpty || decide (bestMatch.length < projectPath.length) then projectPath
        else bestMatch
      else bestMatch)
    []

/-- One fold step of `findProjectPath`. -/
def findProjectStep (filePath : Str) (bestMatch projectPath : Str) : Str :=
  if projectPath.isPrefixOf filePath then
    if bestMatch.isEmpty || decide (bestMatch.length < projectPath.length) then projectPath
    else bestMatch
  else bestMatch

/-! ### Exclusion constants (src/extractors/java.ts, extractorDispatcher.ts) -/

def javaExcludedDirectories : List Str := [(".gradle").data, (".mvn").data]

def javaExcludedFilePatterns : List Str :=
  [("*.iml").data,
   ("build.gradle").data, ("build.gradle.kts").data,
   ("settings.gradle").data, ("settings.gradle.kts").data,
   ("pom.xml").data, ("*.ivy").data, ("*.ivy.xml").data,
   ("*Test.java").data, ("*.test.java").data, ("*.spec.java").data]

def globallyExcludedDirectories : List Str :=
  [("target").data, ("build").data, ("out").data, ("dist").data,
   (".idea").data, (".vscode").data, (".settings").data, (".classpath").data,
   (".project").data,
   ("src/test").data, ("__tests__").data, ("__mocks__").data,
   ("jacoco").data, (".nyc_output").data, ("coverage").data,
   ("node_modules").data, ("lib").data, ("libs").data,
   ("docs").data, (".next").data, (".turbo").data, (".parcel-cache").data,
   (".nx").data, ("storybook-static").data,
   ("venv").data, ("__pycache__").data]

def globallyExcludedFilePatterns : List Str :=
  [(".git").data, (".svn").data, (".hg").data,
   ("*.class").data, ("*.jar").data, ("*.war").data, ("*.ear").data,
   ("*.zip").data, ("*.tar.gz").data, ("*.kts").data,
   ("*.log").data, ("*.tmp").data, ("*.bak").data, ("*.swp").data,
   ("*.md").data, ("*.png").data, ("*.jpg").data, ("*.jpeg").data,
   ("*.gif").data, ("*.svg").data, ("*.sql").data]

/-! ### src/extractors/java.ts — import resolution -/

/-- Joining as `Array.prototype.join('.')`. -/
def joinDot : List Str → Str
  | [] => []
  | [x] => x
  | x :: xs => x ++ ('.') :: joinDot xs

/-- Embeds `String.prototype.lastIndexOf('.')`: index of the last dot, `-1` when
there is none. -/
def lastIndexOfDot : Str → Int
  | [] => -1
  | c :: cs =>
      if lastIndexOfDot cs = -1 then (if c = '.' then 0 else -1)
      else lastIndexOfDot cs + 1

/-- Resolve a JS index argument against a length: negative values count from
the end and everything is clamped into `[0, len]`, as in `slice`. -/
def jsIndexClamp (len : Nat) (i : Int) : Nat :=
  if i < 0 then ((len : Int) + i).toNat else min i.toNat len

/-- Slicing as `s.slice(0, e)` for an arbitrary (possibly negative) `e`. -/
def jsSliceEnd (s : Str) (e : Int) : Str :=
  s.take (jsIndexClamp s.length e)

/-- Slicing as `s.slice(st)` for an arbitrary (possibly negative) `st`. -/
def jsSliceFrom (s : Str) (st : Int) : Str :=
  s.drop (jsIndexClamp s.length st)

/-- Embeds `fallbackForNotFindingJarMatch` from java.ts: the purely syntactic
library/entity split used when no dependency-index entry matches. -/
def fallbackForNotFindingJarMatch (importedClass : Str) (isWildcard isStatic : Bool) :
    Str × Str :=
  if isWildcard then
    (jsSliceEnd importedClass (lastIndexOfDot importedClass),
     if isStatic then
       jsSliceFrom importedClass (lastIndexOfDot importedClass + 1) ++ (".*").data
     else [('*')])
  else if isStatic ∧ (splitOnSep ('.') importedClass).length > 2 then
    (joinDot ((splitOnSep ('.') importedClass).take
        ((splitOnSep ('.') importedClass).length - 2)),
     joinDot ((splitOnSep ('.') importedClass).drop
        ((splitOnSep ('.') importedClass).length - 2)))
  else if ¬ lastIndexOfDot importedClass = -1 then
    (jsSliceEnd importedClass (lastIndexOfDot importedClass),
     jsSliceFrom importedClass (lastIndexOfDot importedClass + 1))
  else
    ([], importedClass)

/-- The value stored in the per-project dependency index (java.ts,
`ImportedClassMetadata`). -/
structure ImportedClassMetadata where
  jar : Str
  entity : Str
deriving DecidableEq, Repr

/-- Per-project dependency index: imported class name to jar metadata. -/
abbrev JarMap := List (Str × ImportedClassMetadata)

/-- Embeds `getLibraryAndImportedEntity` from java.ts: exact index lookup, then
wildcard extension lookup, then the syntactic fallback. -/
def getLibraryAndImportedEntity (importedClass : Str) (isStatic isWildcard : Bool)
    (packageToJarMap : JarMap) : Str × Str :=
  match mapGet packageToJarMap importedClass with
  | some d => (d.jar, if isWildcard then [('*')] else d.entity)
  | none =>
      if isWildcard then
        match packageToJarMap.find?
            (fun kv => (importedClass ++ [('.')]).isPrefixOf kv.1) with
        | some kv => (kv.2.jar, [('*')])
        | none => fallbackForNotFindingJarMatch importedClass isWildcard isStatic
      else fallbackForNotFindingJarMatch importedClass isWildcard isStatic

/-- Embeds `isLocalImport` (java.ts): the target starts with a repository group id. -/
def isLocalImport (importedClass : Str) (repoGroupIds : List Str) : Bool :=
  repoGroupIds.any (fun g => g.isPrefixOf importedClass)

/-- Embeds `isJdkModule` (java.ts): platform namespaces. -/
def isJdkModule (moduleName : Str) : Bool :=
  (("java.").data.isPrefixOf moduleName) ||
    (("jdk.").data.isPrefixOf moduleName) ||
    (("javax.").data.isPrefixOf moduleName)

/-- A target accepted by the java.ts import pattern
`^\s*import\s+(static\s+)?([\w.]+)(\.\*)?;\s*$` (group 2). -/
def acceptedJavaImportTarget (s : Str) : Bool :=
  (¬ s.isEmpty) && s.all (fun c => c.isAlphanum || c = '_' || c = '.')

/-- The statement built for one matched import line in java.ts
`extractImports` (the regex has no alias group, so no alias modifier ever
appears). -/
def javaEmitStatement (relativePath projectPath language : Str) (groupIds : List Str)
    (m : JarMap) (isStatic isWildcard : Bool) (importedClass fullImport : Str) :
    Option ImportStatement :=
  if isLocalImport importedClass groupIds then none
  else
    if isJdkModule (getLibraryAndImportedEntity importedClass isStatic isWildcard m).1
    then none
    else some
      { file := relativePath
        projectPath := projectPath
        importedEntity := (getLibraryAndImportedEntity importedClass isStatic isWildcard m).2
        modifiers :=
          (if isStatic then [("static").data] else []) ++
            (if isWildcard then [("wildcard").data] else [])
        language := language
        library := (getLibraryAndImportedEntity importedClass isStatic isWildcard m).1
        fullImport := fullImport }

/-! ### src/extractors/java.ts — jdeps report parsing and index building -/

def isWsChar (c : Char) : Bool := c.isWhitespace

/-- The lazy group 3 of the jdeps line pattern `(\S+?)(?:\.jar)?`: within the
final token, the shortest non-empty group such that the optional `.jar` and
end of token follow, i.e. one trailing `.jar` is stripped when the remainder
stays non-empty. -/
def lazyJarGroup (run : Str) : Str :=
  if (".jar").data.isSuffixOf run ∧ run.length > 4 then run.take (run.length - 4) else run

/-- One backtracking attempt of the jdeps line pattern
`^\s*(\S+)\s*->\s*(\S+)\s+(\S+?)(?:\.jar)?\s*$` with group 1 bound to the
first `k` characters after the leading whitespace. -/
def tryParseFrom (s1 : Str) (k : Nat) : Option (Str × Str × Str) :=
  let rest2 := (s1.drop k).dropWhile isWsChar
  if (("->").data).isPrefixOf rest2 then
    let rest3 := (rest2.drop 2).dropWhile isWsChar
    let b := rest3.takeWhile (fun c => ¬ c.isWhitespace)
    if b.isEmpty then none
    else
      match rest3.drop b.length with
      | [] => none
      | c :: rest4 =>
          if isWsChar c then
            let rest5 := (c :: rest4).dropWhile isWsChar
            let run := rest5.takeWhile (fun c => ¬ c.isWhitespace)
            if run.isEmpty then none
            else if (rest5.drop run.length).all isWsChar then
              some (s1.take k, b, lazyJarGroup run)
            else none
          else none
  else none

/-- Parse one jdeps report line `sourceClass -> importedClass importedJar`
(java.ts, the per-line regex in `generateImportedClassToJarMaps`), trying
group-1 lengths longest first as regex backtracking does. -/
def parseJdepsLine (line : Str) : Option (Str × Str × Str) :=
  ((List.range ((line.dropWhile isWsChar).takeWhile
        (fun c => ¬ c.isWhitespace)).length).map
      (fun i => ((line.dropWhile isWsChar).takeWhile
        (fun c => ¬ c.isWhitespace)).length - i)).findSome?
    (tryParseFrom (line.dropWhile isWsChar))

/-- Stripping as `replace` of a final `.jar`. -/
def stripJarExt (s : Str) : Str :=
  if (".jar").data.isSuffixOf s then s.take (s.length - 4) else s

/-- Does `\d+(?:\.\d+)+.*` match at the start of `s` (the version tail of the
dash-rewrite pattern)? -/
def versionTailAccepted (s : Str) : Bool :=
  (¬ (s.takeWhile (fun c => c.isDigit)).isEmpty) &&
    (match s.drop (s.takeWhile (fun c => c.isDigit)).length with
     | '.' :: rest => ¬ (rest.takeWhile (fun c => c.isDigit)).isEmpty
     | _ => false)

/-- The dash-version rewrite `replace` with pattern dash + version tail +
end, replacement `'@$1'`: rewrite at the leftmost dash followed by a
version tail, if any. -/
def replaceVersionDashAux : Str → Option Str
  | [] => none
  | c :: cs =>
      if c = '-' ∧ versionTailAccepted cs then some (('@') :: cs)
      else (replaceVersionDashAux cs).map (fun t => c :: t)

def replaceVersionDash (s : Str) : Str := (replaceVersionDashAux s).getD s

/-- Jar-name normalization applied when storing an index entry. -/
def normalizeJarCoordinate (j : Str) : Str := replaceVersionDash (stripJarExt j)

/-- Embeds `importedClass.split('.').at(-1) || ''`. -/
def classLastSegment (importedClass : Str) : Str :=
  (splitOnSep ('.') importedClass).getLastD []

/-- The skip condition of the jdeps line loop:
`importedJar === projectJar || (groupId && !sourceClass.startsWith(groupId))`
(a `null` group id makes the second conjunct falsy). -/
def jdepsSkipCondition (groupId : Option Str) (projectJar : Str)
    (sourceClass importedJar : Str) : Bool :=
  (importedJar == projectJar) ||
    (match groupId with
     | some g => ! g.isPrefixOf sourceClass
     | none => false)

/-- Processing of one jdeps output line inside
`generateImportedClassToJarMaps`: parse, filter self-references and foreign
source classes, then index by imported class name. -/
def processJdepsLine (groupId : Option Str) (projectJar : Str) (m : JarMap)
    (line : Str) : JarMap :=
  match parseJdepsLine line with
  | none => m
  | some (sourceClass, importedClass, importedJar) =>
      if jdepsSkipCondition groupId projectJar sourceClass importedJar then m
      else
        mapSet m importedClass
          { jar := normalizeJarCoordinate importedJar
            entity := classLastSegment importedClass }

/-- The dependency index of one project, built from its jdeps output. -/
def buildJarMap (groupId : Option Str) (projectJar : Str) (lines : List Str) : JarMap :=
  lines.foldl (processJdepsLine groupId projectJar) []

/-- Per-project inputs to `generateImportedClassToJarMaps`: `projectJar` is
`none` when no archive was found in the build output directory, and
`jdepsOutput` is `none` when the external tool invocation failed. -/
structure JavaProject where
  projectPath : Str
  groupId : Option Str
  projectJar : Option Str
  jdepsOutput : Option (List Str)

/-- Embeds `generateImportedClassToJarMaps`: projects whose jar is missing or whose
external tool run failed are skipped (`continue`) and get no index entry. -/
def generateImportedClassToJarMaps (projects : List JavaProject) :
    List (Str × JarMap) :=
  projects.foldl
    (fun acc p =>
      match p.projectJar with
      | none => acc
      | some jar =>
          match p.jdepsOutput with
          | none => acc
          | some lines => acc ++ [(p.projectPath, buildJarMap p.groupId jar lines)])
    []

/-- One match of the java.ts import regex (target together with its
qualifiers), abstracting the line scan over the file content. -/
structure JavaRawImport where
  isStatic : Bool
  isWildcard : Bool
  target : Str
  fullText : Str
deriving DecidableEq, Repr

/-- java.ts `extractImports`: throws when the project has no dependency
index (`importedClassToJarMap` undefined), otherwise emits one statement per
non-local, non-JDK import match. -/
def extractImportsJavaFile (relativePath projectPath : Str) (groupIds : List Str)
    (importedClassToJarMap : Option JarMap) (records : List JavaRawImport) :
    Except Str (List ImportStatement) :=
  match importedClassToJarMap with
  | none =>
      Except.error
        (("Error finding importedClassToJar map for this project: ").data ++ projectPath)
  | some m =>
      Except.ok (records.filterMap (fun r =>
        javaEmitStatement relativePath projectPath (("Java").data) groupIds m
          r.isStatic r.isWildcard r.target r.fullText))

/-- One iteration of the per-file loop in main.ts over the Java extractor:
skip ignored files, otherwise resolve the owning project and extract. -/
def javaFileStep (maps : List (Str × JarMap)) (groupIds : List Str) (repoPath : Str)
    (acc : List ImportStatement) (fr : Str × List JavaRawImport) :
    Except Str (List ImportStatement) :=
  if isIgnored fr.1 javaExcludedDirectories javaExcludedFilePatterns then
    Except.ok acc
  else
    match extractImportsJavaFile (getRelativePathToRepo repoPath fr.1)
        (findProjectPath fr.1 (maps.map (fun kv => kv.1))) groupIds
        (mapGet maps (findProjectPath fr.1 (maps.map (fun kv => kv.1)))) fr.2 with
    | Except.error e => Except.error e
    | Except.ok stmts => Except.ok (acc ++ stmts)

/-- The per-file loop of main.ts over the Java extractor: an exception from
`extractImports` propagates out of the loop and aborts the whole run. -/
def runJavaExtraction (maps : List (Str × JarMap)) (groupIds : List Str)
    (repoPath : Str) (files : List (Str × List JavaRawImport)) :
    Except Str (List ImportStatement) :=
  files.foldlM (javaFileStep maps groupIds repoPath) []

/-! ### src/extractors/java.ts — pom.xml group id derivation -/

/-- Split at the first occurrence of `pat`: `s = pre ++ pat ++ post` with the
shortest possible `pre`. -/
def splitFirstAt (pat : Str) : Str → Option (Str × Str)
  | [] => none
  | c :: cs =>
      if pat.isPrefixOf (c :: cs) then some ([], (c :: cs).drop pat.length)
      else
        match splitFirstAt pat cs with
        | some pr => some (c :: pr.1, pr.2)
        | none => none

/-- Embeds the parent-block `replace` of findGroupId: remove the text
from the first `<parent>` to the first following `</parent>`, when both
occur. -/
def removeParentBlock (s : Str) : Str :=
  match splitFirstAt (("<parent>").data) s with
  | none => s
  | some pr =>
      match splitFirstAt (("</parent>").data) pr.2 with
      | none => s
      | some qr => pr.1 ++ qr.2

/-- A `\w` or `.` character, the character class of the groupId pattern. -/
def isWordDotChar (c : Char) : Bool := c.isAlphanum || c = '_' || c = '.'

/-- Does `/<groupId>([\w.]+)<\/groupId>/` match at the start of `s`?  The
greedy character-class run must be non-empty and immediately followed by the
closing tag. -/
def matchGroupIdAt (s : Str) : Option Str :=
  if (("<groupId>").data).isPrefixOf s then
    if ((s.drop ("<groupId>").data.length).takeWhile isWordDotChar).isEmpty then none
    else
      if (("</groupId>").data).isPrefixOf
          ((s.drop ("<groupId>").data.length).drop
            ((s.drop ("<groupId>").data.length).takeWhile isWordDotChar).length) then
        some ((s.drop ("<groupId>").data.length).takeWhile isWordDotChar)
      else none
  else none

/-- Leftmost match of the groupId pattern. -/
def findGroupIdIn : Str → Option Str
  | [] => none
  | c :: cs =>
      match matchGroupIdAt (c :: cs) with
      | some g => some g
      | none => findGroupIdIn cs

/-- Embeds `findGroupId` from java.ts: remove the parent block, then take the first
groupId match. -/
def findGroupId (pomContent : Str) : Option Str :=
  findGroupIdIn (removeParentBlock pomContent)

/-- A manifest whose parent block (declaring `org.springframework.boot`)
precedes the project's own group id declaration. -/
def pomWithParent (own : Str) : Str :=
  ("<parent><groupId>org.springframework.boot</groupId><artifactId>spring-boot-starter-parent</artifactId></parent><groupId>").data
    ++ own ++ ("</groupId>").data

/-! ### src/plugins/javascript.ts -/

/-- The literal sentinel returned when no candidate matches the lock file. -/
def noMatchSentinel : Str := ("No match found in lock file").data

/-- Descending-length order used to sort fallback candidates
(`(a, b) => b.length - a.length`). -/
def lenGE (a b : Str) : Prop := b.length ≤ a.length

instance : DecidableRel lenGE :=
  fun a b => inferInstanceAs (Decidable (b.length ≤ a.length))

instance : IsTotal Str lenGE := by
  constructor
  intro a b
  unfold lenGE
  exact Nat.le_total b.length a.length

instance : IsTrans Str lenGE :=
  ⟨fun _ _ _ hab hbc => Nat.le_trans hbc hab⟩

/-- Joining as `Array.prototype.join('/')`. -/
def joinSlash : List Str → Str
  | [] => []
  | [x] => x
  | x :: xs => x ++ ('/') :: joinSlash xs

/-- The candidate prefixes generated by `fallbackResolveImport`: the scoped
two-segment form when the specifier starts with `@`, plus every
segment-prefix of the specifier. -/
def candidatesFor (importPath : Str) : List Str :=
  (if importPath.head? = some ('@') ∧ (splitOnSep ('/') importPath).length ≥ 2 then
     [((splitOnSep ('/') importPath).getD 0 []) ++
        ('/') :: ((splitOnSep ('/') importPath).getD 1 [])]
   else []) ++
    (List.range (splitOnSep ('/') importPath).length).map
      (fun i => joinSlash ((splitOnSep ('/') importPath).take (i + 1)))

/-- The candidates sorted by decreasing length (a stable sort; candidates of
equal length are equal strings, so any sort matching the comparator agrees
with the JS in-place sort). -/
def sortCandidatesByLen (cs : List Str) : List Str := List.insertionSort lenGE cs

/-- Embeds `fallbackResolveImport` from javascript.ts: return the index entry of
the first (longest) candidate present in the index, else the sentinel. -/
def fallbackResolveImport (libraryName : Str) (dependencyMap : List (Str × Str)) : Str :=
  match (sortCandidatesByLen (candidatesFor libraryName)).find?
      (fun c => (mapGet dependencyMap c).isSome) with
  | some c => (mapGet dependencyMap c).getD []
  | none => noMatchSentinel

/-- The fixed registry of Node built-in module names (javascript.ts,
`nodeModules`). -/
def nodeModulesList : List Str :=
  [("assert").data, ("async_hooks").data, ("buffer").data, ("child_process").data,
   ("cluster").data, ("console").data, ("constants").data, ("crypto").data,
   ("dgram").data, ("dns").data, ("domain").data, ("events").data,
   ("fs").data, ("fs/promises").data, ("http").data, ("http2").data,
   ("https").data, ("inspector").data, ("module").data, ("net").data,
   ("os").data, ("path").data, ("perf_hooks").data, ("process").data,
   ("punycode").data, ("querystring").data, ("readline").data, ("repl").data,
   ("stream").data, ("string_decoder").data, ("timers").data, ("tls").data,
   ("trace_events").data, ("tty").data, ("url").data, ("util").data,
   ("v8").data, ("vm").data, ("worker_threads").data, ("zlib").data]

/-- Embeds `isNodeModule`: strip a `node:` prefix (`slice(5)`) if present, then look
the name up in the registry. -/
def isNodeModule (importPath : Str) : Bool :=
  nodeModulesList.contains
    (if (("node:").data).isPrefixOf importPath then importPath.drop 5 else importPath)

/-- Embeds `isLocalImport` and `isLocalAbsoluteImport` from javascript.ts. -/
def jsIsLocalImport (importPath : Str) (localAbsoluteImportPrefixes : List Str) : Bool :=
  (("./").data.isPrefixOf importPath) || (("../").data.isPrefixOf importPath) ||
    (("/").data.isPrefixOf importPath) ||
    localAbsoluteImportPrefixes.any
      (fun pre => importPath == pre || (pre ++ [('/')]).isPrefixOf importPath)

/-- The three specifier node kinds of a static import declaration. -/
inductive JsImportSpecifier where
  | defaultSpec (localName : Str)
  | namedSpec (importedName localName : Str)
  | namespaceSpec (localName : Str)

/-- Name and modifier produced for one specifier in the javascript.ts
`ImportDeclaration` handler.  A namespace specifier gets the single combined
modifier string `"wildcard, alias"`. -/
def specifierEntity : JsImportSpecifier → Str × Option Str
  | JsImportSpecifier.defaultSpec l => (l, none)
  | JsImportSpecifier.namedSpec imp l =>
      (l, if imp == l then none else some (("alias").data))
  | JsImportSpecifier.namespaceSpec l =>
      (("* as ").data ++ l, some (("wildcard, alias").data))

/-- Joining as `Array.prototype.join(', ')`. -/
def joinCommaSpace : List Str → Str
  | [] => []
  | [x] => x
  | x :: xs => x ++ (", ").data ++ joinCommaSpace xs

/-- Resolution as `dependencyMap.get(source) ?? fallbackResolveImport(source, map)`. -/
def jsLibraryFor (source : Str) (dm : List (Str × Str)) : Str :=
  (mapGet dm source).getD (fallbackResolveImport source dm)

/-- The statement built for one `ImportDeclaration` node (javascript.ts),
given its already-classified specifiers. -/
def jsImportDeclEmit (relativePath projectPath language fullImport : Str)
    (localPrefs : List Str) (dm : List (Str × Str)) (source : Str)
    (specifiers : List JsImportSpecifier) : Option ImportStatement :=
  if jsIsLocalImport source localPrefs || isNodeModule source then none
  else some
    { file := relativePath
      projectPath := projectPath
      importedEntity := joinCommaSpace ((specifiers.map specifierEntity).map (fun e => e.1))
      modifiers := (specifiers.map specifierEntity).filterMap (fun e => e.2)
      language := language
      library := jsLibraryFor source dm
      fullImport := fullImport }

/-- The statement built for one `require('...')` call expression
(javascript.ts): discarded when local or a platform built-in, otherwise
emitted with empty entity and no modifiers. -/
def jsRequireEmit (relativePath projectPath language fullImport : Str)
    (localPrefs : List Str) (dm : List (Str × Str)) (arg : Str) :
    Option ImportStatement :=
  if jsIsLocalImport arg localPrefs || isNodeModule arg then none
  else some
    { file := relativePath
      projectPath := projectPath
      importedEntity := []
      modifiers := []
      language := language
      library := jsLibraryFor arg dm
      fullImport := fullImport }

theorem splitOnSepAux_not_mem (sep : Char) :
    ∀ (s acc : Str), sep ∉ acc →
      ∀ part ∈ splitOnSepAux sep s acc, sep ∉ part := by
  intro s
  induction s with
  | nil =>
      intro acc hacc part hp
      simp only [splitOnSepAux, List.mem_singleton] at hp
      subst hp
      simpa using hacc
  | cons c cs ih =>
      intro acc hacc part hp
      by_cases hc : c = sep
      · simp only [splitOnSepAux, if_pos hc, List.mem_cons] at hp
        rcases hp with hp | hp
        · subst hp; simpa using hacc
        · exact ih [] (by simp) part hp
      · simp only [splitOnSepAux, if_neg hc] at hp
        refine ih (c :: acc) ?_ part hp
        intro hmem
        rcases List.mem_cons.mp hmem with h | h
        · exact hc h.symm
        · exact hacc h

/-- Segments of a split never contain the separator. -/
theorem splitOnSep_not_mem (sep : Char) (s : Str) :
    ∀ part ∈ splitOnSep sep s, sep ∉ part :=
  splitOnSepAux_not_mem sep s [] (by simp)

theorem splitOnSepAux_ne_nil (sep : Char) :
    ∀ (s acc : Str), splitOnSepAux sep s acc ≠ [] := by
  intro s
  induction s with
  | nil => intro acc; simp [splitOnSepAux]
  | cons c cs ih =>
      intro acc
      by_cases hc : c = sep
      · simp [splitOnSepAux, if_pos hc]
      · simpa [splitOnSepAux, if_neg hc] using ih (c :: acc)

theorem splitOnSep_ne_nil (sep : Char) (s : Str) : splitOnSep sep s ≠ [] :=
  splitOnSepAux_ne_nil sep s []

theorem splitOnSepAux_head (sep : Char) :
    ∀ (s acc : Str),
      (splitOnSepAux sep s acc).head? =
        some (acc.reverse ++ s.takeWhile (fun c => ¬ c = sep)) := by
  intro s
  induction s with
  | nil => intro acc; simp [splitOnSepAux, List.takeWhile]
  | cons c cs ih =>
      intro acc
      by_cases hc : c = sep
      · simp [splitOnSepAux, if_pos hc, List.takeWhile, hc]
      · have := ih (c :: acc)
        simp only [splitOnSepAux, if_neg hc]
        rw [this]
        simp [List.takeWhile, hc]

/-- The first segment of a split is the longest separator-free prefix. -/
theorem splitOnSep_head (sep : Char) (s : Str) :
    (splitOnSep sep s).head? = some (s.takeWhile (fun c => ¬ c = sep)) := by
  simpa using splitOnSepAux_head sep s []

theorem findProjectPath_eq_foldl (filePath : Str) (projectPaths : List Str) :
    findProjectPath filePath projectPaths =
      projectPaths.foldl (findProjectStep filePath) [] := rfl

theorem findProjectStep_length_le (filePath bestMatch projectPath : Str) :
    bestMatch.length ≤ (findProjectStep filePath bestMatch projectPath).length := by
  unfold findProjectStep
  by_cases h1 : projectPath.isPrefixOf filePath = true
  · simp only [h1, if_true]
    by_cases h2 : (bestMatch.isEmpty || decide (bestMatch.length < projectPath.length)) = true
    · simp only [h2, if_true]
      rcases Bool.or_eq_true_iff.mp h2 with h | h
      · have : bestMatch = [] := by simpa [List.isEmpty_iff] using h
        simp [this]
      · exact Nat.le_of_lt (of_decide_eq_true h)
    · simp [h2]
  · simp [h1]

theorem findProjectPath_foldl_mono (filePath : Str) :
    ∀ (l : List Str) (acc : Str),
      acc.length ≤ (l.foldl (findProjectStep filePath) acc).length := by
  intro l
  induction l with
  | nil => intro acc; simp
  | cons a t ih =>
      intro acc
      calc acc.length ≤ (findProjectStep filePath acc a).length :=
            findProjectStep_length_le filePath acc a
        _ ≤ _ := ih (findProjectStep filePath acc a)

theorem findProjectPath_foldl_sound (filePath : Str) :
    ∀ (l : List Str) (acc : Str),
      l.foldl (findProjectStep filePath) acc = acc ∨
        (l.foldl (findProjectStep filePath) acc ∈ l ∧
          (l.foldl (findProjectStep filePath) acc).isPrefixOf filePath = true) := by
  intro l
  induction l with
  | nil => intro acc; left; rfl
  | cons a t ih =>
      intro acc
      rcases ih (findProjectStep filePath acc a) with h | h
      · simp only [List.foldl_cons] at *
        rw [h]
        unfold findProjectStep
        by_cases h1 : a.isPrefixOf filePath = true
        · simp only [h1, if_true]
          by_cases h2 : (acc.isEmpty || decide (acc.length < a.length)) = true
          · right; simp [h2, h1]
          · left; simp [h2]
        · left; simp [h1]
      · right
        exact ⟨List.mem_cons_of_mem a h.1, h.2⟩

theorem findProjectPath_foldl_max (filePath : Str) :
    ∀ (l : List Str) (acc : Str) (q : Str), q ∈ l → q.isPrefixOf filePath = true →
      q.length ≤ (l.foldl (findProjectStep filePath) acc).length := by
  intro l
  induction l with
  | nil => intro acc q hq; simp at hq
  | cons a t ih =>
      intro acc q hq hpref
      rcases List.mem_cons.mp hq with h | h
      · subst h
        have hstep : q.length ≤ (findProjectStep filePath acc q).length := by
          unfold findProjectStep
          simp only [hpref, if_true]
          by_cases h2 : (acc.isEmpty || decide (acc.length < q.length)) = true
          · simp [h2]
          · simp only [h2, if_false]
            have hor := Bool.or_eq_false_iff.mp (Bool.not_eq_true _ |>.mp h2)
            have hlt : ¬ acc.length < q.length := of_decide_eq_false hor.2
            rw [if_neg (by simp)]
            omega
        calc q.length ≤ (findProjectStep filePath acc q).length := hstep
          _ ≤ _ := findProjectPath_foldl_mono filePath t _
      · exact ih (findProjectStep filePath acc a) q h hpref

theorem strict_prefix_length_lt {r1 r2 : Str}
    (hpref : r1.isPrefixOf r2 = true) (hne : r1 ≠ r2) :
    r1.length < r2.length := by
  have h := List.isPrefixOf_iff_prefix.mp hpref
  have hle := h.length_le
  rcases Nat.lt_or_ge r1.length r2.length with hlt | hge
  · exact hlt
  · exact absurd (h.eq_of_length (Nat.le_antisymm hle hge)) hne

/-- C8: among the known roots that are string prefixes of the file path,
`findProjectPath` returns one of maximal length; in particular with two
candidate roots, one a strict prefix of the other, the deeper root wins
regardless of order. -/
theorem claim_C8_project_scoping :
    (∀ (filePath : Str) (roots : List Str) (r : Str),
        r ∈ roots → r.isPrefixOf filePath = true → r ≠ [] →
        findProjectPath filePath roots ∈ roots ∧
        (findProjectPath filePath roots).isPrefixOf filePath = true ∧
        ∀ q ∈ roots, q.isPrefixOf filePath = true →
          q.length ≤ (findProjectPath filePath roots).length) ∧
    (∀ (filePath r1 r2 : Str),
        r1.isPrefixOf r2 = true → r1 ≠ r2 → r2.isPrefixOf filePath = true → r2 ≠ [] →
        findProjectPath filePath [r1, r2] = r2 ∧
        findProjectPath filePath [r2, r1] = r2) := by
  have main : ∀ (filePath : Str) (roots : List Str) (r : Str),
      r ∈ roots → r.isPrefixOf filePath = true → r ≠ [] →
      findProjectPath filePath roots ∈ roots ∧
      (findProjectPath filePath roots).isPrefixOf filePath = true ∧
      ∀ q ∈ roots, q.isPrefixOf filePath = true →
        q.length ≤ (findProjectPath filePath roots).length := by
    intro filePath roots r hr hpref hne
    have hmax := findProjectPath_foldl_max filePath roots ([]) r hr hpref
    rcases findProjectPath_foldl_sound filePath roots ([]) with hsound | hsound
    · exfalso
      rw [hsound] at hmax
      exact hne (List.eq_nil_of_length_eq_zero (Nat.le_zero.mp hmax))
    · refine ⟨?_, ?_, ?_⟩
      · rw [findProjectPath_eq_foldl]; exact hsound.1
      · rw [findProjectPath_eq_foldl]; exact hsound.2
      · intro q hq hqpref
        rw [findProjectPath_eq_foldl]
        exact findProjectPath_foldl_max filePath roots ([]) q hq hqpref
  refine ⟨main, ?_⟩
  intro filePath r1 r2 h12 hne h2f h2ne
  have hlt := strict_prefix_length_lt h12 hne
  constructor
  · rcases main filePath [r1, r2] r2 (by simp) h2f h2ne with ⟨hmem, _, hmax⟩
    have hlen := hmax r2 (by simp) h2f
    rcases List.mem_cons.mp hmem with h | h
    · exfalso; rw [h] at hlen; omega
    · simpa using h
  · rcases main filePath [r2, r1] r2 (by simp) h2f h2ne with ⟨hmem, _, hmax⟩
    have hlen := hmax r2 (by simp) h2f
    rcases List.mem_cons.mp hmem with h | h
    · exact h
    · exfalso
      have : findProjectPath filePath [r2, r1] = r1 := by simpa using h
      rw [this] at hlen; omega

/-- Witness for C8 at a concrete monorepo layout. -/
theorem claim_C8_project_scoping_witness :
    findProjectPath (("/repo/core/sub/src/Main.java").data)
        [("/repo/core").data, ("/repo/core/sub").data] = ("/repo/core/sub").data :=
  (claim_C8_project_scoping.2 (("/repo/core/sub/src/Main.java").data)
      (("/repo/core").data) (("/repo/core/sub").data)
      (by decide) (by decide) (by decide) (by decide)).1

theorem mem_basename_cases {c : Char} {p : Str} (h : c ∈ basename p) :
    c = '/' ∨ c ∈ p := by
  unfold basename at h
  split at h
  · split at h
    · simp at h
    · left; simpa using h
  · right
    rw [List.mem_reverse] at h
    have h1 : c ∈ (basenameTrimmed p).reverse :=
      (List.takeWhile_sublist _).subset h
    unfold basenameTrimmed at h1
    rw [List.reverse_reverse] at h1
    have h2 : c ∈ p.reverse := (List.dropWhile_sublist _).subset h1
    rwa [List.mem_reverse] at h2

theorem suffix_pattern_star {fileName pat : Str}
    (hsuf : pat.isSuffixOf fileName = true) (hstar : ('*') ∈ pat) :
    ('*') ∈ fileName := by
  have h := List.isSuffixOf_iff_suffix.mp hsuf
  rcases h with ⟨t, ht⟩
  rw [← ht]
  exact List.mem_append.mpr (Or.inr hstar)

theorem any_filter_invisible (f keep : Str → Bool) :
    ∀ (l : List Str), (∀ p ∈ l, keep p = false → f p = false) →
      l.any f = (l.filter keep).any f := by
  intro l
  induction l with
  | nil => intro _; rfl
  | cons a t ih =>
      intro h
      by_cases hk : keep a = true
      · simp only [List.any_cons, List.filter_cons, hk, if_true]
        rw [ih (fun p hp => h p (List.mem_cons_of_mem a hp))]
      · have hka : keep a = false := Bool.not_eq_true _ |>.mp hk
        have hfa : f a = false := h a (List.mem_cons_self a t) hka
        simp only [List.any_cons, List.filter_cons, hka, hfa, Bool.false_or,
          if_false]
        exact ih (fun p hp => h p (List.mem_cons_of_mem a hp))

/-- C10: file exclusion is purely literal.  A file is ignored iff a path
segment equals an excluded-directory entry or its basename literally ends
with a pattern string; hence the entry `"src/test"` can never match a path
segment, star patterns never match star-free file paths, and dropping the
star patterns does not change the verdict on star-free paths. -/
theorem claim_C10_literal_exclusion :
    (∀ (file : Str) (dirs pats : List Str),
        isIgnored file dirs pats = true ↔
          ((∃ seg, seg ∈ splitOnSep ('/') file ∧ seg ∈ dirs) ∨
           (∃ p, p ∈ pats ∧ p.isSuffixOf (basename file) = true))) ∧
    (∀ file : Str, ("src/test").data ∉ splitOnSep ('/') file) ∧
    (∀ (file p : Str), ('*') ∈ p → ('*') ∉ file →
        p.isSuffixOf (basename file) = false) ∧
    (∀ (file : Str) (dirs pats : List Str), ('*') ∉ file →
        isIgnored file dirs pats =
          isIgnored file dirs (pats.filter (fun p => ! p.contains ('*')))) ∧
    ("src/test").data ∈ globallyExcludedDirectories ∧
    ("*Test.java").data ∈ javaExcludedFilePatterns := by
  have star_free : ∀ (file p : Str), ('*') ∈ p → ('*') ∉ file →
      p.isSuffixOf (basename file) = false := by
    intro file p hstar hfile
    by_cases h : p.isSuffixOf (basename file) = true
    · exfalso
      have hb : ('*') ∈ basename file := suffix_pattern_star h hstar
      rcases mem_basename_cases hb with hc | hc
      · exact absurd hc (by decide)
      · exact hfile hc
    · exact Bool.not_eq_true _ |>.mp h
  refine ⟨?_, ?_, star_free, ?_, by decide, by decide⟩
  · intro file dirs pats
    unfold isIgnored
    simp only [Bool.or_eq_true, List.any_eq_true, List.contains, List.elem_eq_mem,
      decide_eq_true_eq]
  · intro file hmem
    have hs := splitOnSep_not_mem ('/') file _ hmem
    exact hs (by decide)
  · intro file dirs pats hfile
    unfold isIgnored
    have hrw := any_filter_invisible (fun pat => pat.isSuffixOf (basename file))
        (fun p => ! p.contains ('*')) pats ?_
    · rw [hrw]
    · intro p _ hkeep
      have hkeep2 : (! p.contains ('*')) = false := hkeep
      have hstar : ('*') ∈ p := by
        have hc : p.contains ('*') = true := by
          cases hb : p.contains ('*') with
          | true => rfl
          | false => rw [hb] at hkeep2; simp at hkeep2
        simpa [List.contains] using hc
      exact star_free file p hstar hfile

/-- Witness for C10: on a star-free path, the star patterns can be dropped,
and a concrete star pattern does not match a star-free basename. -/
theorem claim_C10_literal_exclusion_witness :
    (isIgnored (("app/src/main/MyTest.java").data) globallyExcludedDirectories
        javaExcludedFilePatterns =
      isIgnored (("app/src/main/MyTest.java").data) globallyExcludedDirectories
        (javaExcludedFilePatterns.filter (fun p => ! p.contains ('*')))) ∧
    (("*Test.java").data).isSuffixOf
        (basename (("app/src/main/MyTest.java").data)) = false ∧
    ("src/test").data ∉ splitOnSep ('/') (("a/src/test/B.java").data) :=
  ⟨claim_C10_literal_exclusion.2.2.2.1 (("app/src/main/MyTest.java").data)
      globallyExcludedDirectories javaExcludedFilePatterns (by decide),
   claim_C10_literal_exclusion.2.2.1 (("app/src/main/MyTest.java").data)
      (("*Test.java").data) (by decide) (by decide),
   claim_C10_literal_exclusion.2.1 (("a/src/test/B.java").data)⟩

/-! ### Claim C1 -/

theorem lastIndexOfDot_ge_neg_one : ∀ s : Str, -1 ≤ lastIndexOfDot s := by
  intro s
  induction s with
  | nil => simp [lastIndexOfDot]
  | cons c cs ih =>
      unfold lastIndexOfDot
      by_cases h : lastIndexOfDot cs = -1
      · by_cases hc : c = '.' <;> simp [h, hc]
      · simp only [h, if_false]
        omega

theorem lastIndexOfDot_eq_neg_one_iff :
    ∀ s : Str, lastIndexOfDot s = -1 ↔ ('.') ∉ s := by
  intro s
  induction s with
  | nil => simp [lastIndexOfDot]
  | cons c cs ih =>
      unfold lastIndexOfDot
      by_cases h : lastIndexOfDot cs = -1
      · have hcs : ('.') ∉ cs := ih.mp h
        by_cases hc : c = '.'
        · simp [h, hc]
        · simp only [h, if_true, if_neg hc, List.mem_cons]
          constructor
          · intro _ hor
            rcases hor with hor | hor
            · exact hc hor.symm
            · exact hcs hor
          · intro _; trivial
      · have hge := lastIndexOfDot_ge_neg_one cs
        have hcs : ('.') ∈ cs := by
          by_cases hmem : ('.') ∈ cs
          · exact hmem
          · exact absurd (ih.mpr hmem) h
        simp only [h, if_false, List.mem_cons]
        constructor
        · intro habs; omega
        · intro habs; exact absurd (Or.inr hcs) habs

theorem lastIndexOfDot_one_le (c : Char) (cs : Str)
    (hc : c ≠ '.') (hmem : ('.') ∈ c :: cs) : 1 ≤ lastIndexOfDot (c :: cs) := by
  have hcs : ('.') ∈ cs := by
    rcases List.mem_cons.mp hmem with h | h
    · exact absurd h.symm hc
    · exact h
  have hne : ¬ lastIndexOfDot cs = -1 := by
    intro h
    exact (lastIndexOfDot_eq_neg_one_iff cs).mp h hcs
  have hge := lastIndexOfDot_ge_neg_one cs
  unfold lastIndexOfDot
  simp only [hne, if_false]
  omega

theorem jsSliceEnd_ne_nil {s : Str} {e : Int} (he : 1 ≤ e) (hs : s ≠ []) :
    jsSliceEnd s e ≠ [] := by
  unfold jsSliceEnd jsIndexClamp
  rw [if_neg (by omega)]
  intro habs
  rcases List.take_eq_nil_iff.mp habs with h | h
  · have h1 : 1 ≤ e.toNat := by omega
    have h2 : 1 ≤ s.length := by
      rcases s with _ | ⟨a, t⟩
      · exact absurd rfl hs
      · simp
    omega
  · exact hs h

theorem joinDot_ne_nil (x : Str) (xs : List Str) (hx : x ≠ []) :
    joinDot (x :: xs) ≠ [] := by
  rcases xs with _ | ⟨y, ys⟩
  · simpa [joinDot] using hx
  · simp only [joinDot]
    intro habs
    rcases x with _ | ⟨c, cs⟩
    · exact hx rfl
    · simp at habs

/-- C1 counterexample: the single-segment target `Foo` is accepted by the
java.ts import pattern, the fallback yields an empty library for it, and the
pipeline emits a statement whose `library` is the empty string. -/
theorem claim_C1_library_nonempty_counterexample :
    acceptedJavaImportTarget (("Foo").data) = true ∧
    fallbackForNotFindingJarMatch (("Foo").data) false false = ([], ("Foo").data) ∧
    (javaEmitStatement (("src/A.java").data) (("/repo").data) (("Java").data)
        [] [] false false (("Foo").data) (("import Foo;").data)).map
      (fun st => st.library) = some [] := by
  decide

/-- C1 (amended): the Java fallback library is non-empty whenever the import
target contains a dot and does not start with one; for a dotless target it
is empty (java.ts's explicit "unexpected cases" branch).  The JS/TS fallback
never returns an empty library as long as every dependency-index value is
non-empty (index values always have the shape `name@version`). -/
theorem claim_C1_library_nonempty :
    (∀ (target : Str) (w st : Bool),
        target.head? ≠ some ('.') → ('.') ∈ target →
        (fallbackForNotFindingJarMatch target w st).1 ≠ []) ∧
    (∀ (spec : Str) (dm : List (Str × Str)),
        (∀ kv ∈ dm, kv.2 ≠ ([] : Str)) → fallbackResolveImport spec dm ≠ []) := by
  constructor
  · intro target w st hhead hmem
    rcases target with _ | ⟨c, cs⟩
    · simp at hmem
    · have hc : c ≠ '.' := by
        intro h
        exact hhead (by rw [h]; rfl)
      have hone := lastIndexOfDot_one_le c cs hc hmem
      have hne : (c :: cs : Str) ≠ [] := by simp
      unfold fallbackForNotFindingJarMatch
      by_cases hw : w = true
      · simp only [hw, if_true]
        exact jsSliceEnd_ne_nil hone hne
      · have hw2 : w = false := Bool.not_eq_true _ |>.mp hw
        subst hw2
        simp only [Bool.false_eq_true, if_false]
        by_cases hst : st = true ∧ (splitOnSep ('.') (c :: cs)).length > 2
        · rw [if_pos hst]
          rcases hst with ⟨_, hlen⟩
          have hh := splitOnSep_head ('.') (c :: cs)
          rcases hsplit : splitOnSep ('.') (c :: cs) with _ | ⟨p0, rest⟩
          · exact absurd hsplit (splitOnSep_ne_nil ('.') (c :: cs))
          · rw [hsplit] at hh hlen
            simp only [List.head?_cons, Option.some_inj] at hh
            have hp0 : p0 ≠ [] := by
              rw [hh]
              simp [List.takeWhile, hc]
            obtain ⟨k2, hk2⟩ : ∃ k2, (p0 :: rest).length - 2 = k2 + 1 := by
              refine ⟨(p0 :: rest).length - 3, ?_⟩
              simp only [List.length_cons] at hlen ⊢
              omega
            rw [hk2, List.take_succ_cons]
            exact joinDot_ne_nil p0 _ hp0
        · rw [if_neg hst]
          have hnegone : ¬ lastIndexOfDot (c :: cs) = -1 := by omega
          rw [if_pos hnegone]
          exact jsSliceEnd_ne_nil hone hne
  · intro spec dm hvals
    unfold fallbackResolveImport
    rcases hfind : (sortCandidatesByLen (candidatesFor spec)).find?
        (fun c => (mapGet dm c).isSome) with _ | c
    · simp only []
      decide
    · have hsome0 := List.find?_some hfind
      have hsome : (mapGet dm c).isSome = true := hsome0
      rcases hget : mapGet dm c with _ | v
      · rw [hget] at hsome; simp at hsome
      · have hv : ∃ kv ∈ dm, kv.2 = v := by
          unfold mapGet at hget
          rcases hfind2 : dm.find? (fun kv => kv.1 == c) with _ | kv
          · rw [hfind2] at hget; simp at hget
          · rw [hfind2] at hget
            simp at hget
            exact ⟨kv, List.mem_of_find?_eq_some hfind2, hget⟩
        rcases hv with ⟨kv, hkv, hkv2⟩
        show (mapGet dm c).getD [] ≠ []
        rw [hget]
        simpa [hkv2] using hvals kv hkv

/-- Witness for C1 at concrete inputs of both pipelines. -/
theorem claim_C1_library_nonempty_witness :
    (fallbackForNotFindingJarMatch
        (("org.springframework.stereotype.Service").data) false false).1 ≠ [] ∧
    fallbackResolveImport (("lodash/fp").data)
        [((("lodash").data), (("lodash@4.17.21").data))] ≠ [] :=
  ⟨claim_C1_library_nonempty.1 (("org.springframework.stereotype.Service").data)
      false false (by decide) (by decide),
   claim_C1_library_nonempty.2 (("lodash/fp").data)
      [((("lodash").data), (("lodash@4.17.21").data))] (by decide)⟩

/-! ### Claim C2 -/

theorem generate_maps_keys :
    ∀ (ps : List JavaProject) (acc : List (Str × JarMap)),
      ((ps.foldl
          (fun acc p =>
            match p.projectJar with
            | none => acc
            | some jar =>
                match p.jdepsOutput with
                | none => acc
                | some lines => acc ++ [(p.projectPath, buildJarMap p.groupId jar lines)])
          acc).map (fun kv => kv.1)) =
        acc.map (fun kv => kv.1) ++
          (ps.filter (fun p => p.projectJar.isSome && p.jdepsOutput.isSome)).map
            (fun p => p.projectPath) := by
  intro ps
  induction ps with
  | nil => intro acc; simp
  | cons p t ih =>
      intro acc
      simp only [List.foldl_cons, List.filter_cons]
      rcases hj : p.projectJar with _ | jar
      · simp only [hj, Option.isSome_none, Bool.false_and, if_false]
        exact ih acc
      · rcases ho : p.jdepsOutput with _ | lines
        · simp only [hj, ho, Option.isSome_some, Option.isSome_none,
            Bool.true_and, if_false]
          exact ih acc
        · simp only [hj, ho, Option.isSome_some, Bool.true_and, if_true,
            List.map_cons]
          rw [ih (acc ++ [(p.projectPath, buildJarMap p.groupId jar lines)])]
          simp

theorem run_aborts_of_missing_map (maps : List (Str × JarMap)) (groupIds : List Str)
    (repo : Str) :
    ∀ (files : List (Str × List JavaRawImport)) (acc : List ImportStatement)
      (fp : Str) (recs : List JavaRawImport),
      (fp, recs) ∈ files →
      isIgnored fp javaExcludedDirectories javaExcludedFilePatterns = false →
      mapGet maps (findProjectPath fp (maps.map (fun kv => kv.1))) = none →
      (files.foldlM (javaFileStep maps groupIds repo) acc).isOk = false := by
  intro files
  induction files with
  | nil => intro acc fp recs hmem; simp at hmem
  | cons g t ih =>
      intro acc fp recs hmem hign hmap
      rw [List.foldlM_cons]
      rcases List.mem_cons.mp hmem with h | h
      · have hstep : javaFileStep maps groupIds repo acc g =
            Except.error ((("Error finding importedClassToJar map for this project: ").data)
              ++ findProjectPath fp (maps.map (fun kv => kv.1))) := by
          rw [← h]
          unfold javaFileStep
          rw [hign]
          simp only [Bool.false_eq_true, if_false]
          unfold extractImportsJavaFile
          rw [hmap]
        rw [hstep]
        rfl
      · rcases hstep : javaFileStep maps groupIds repo acc g with e | acc2
        · rfl
        · show (t.foldlM (javaFileStep maps groupIds repo) acc2).isOk = false
          exact ih acc2 fp recs h hign hmap

/-- C2 counterexample: a project whose external tool invocation failed gets
no dependency index, and a later extraction of one of its files makes the
whole run abort with an error instead of degrading to fallback heuristics. -/
theorem claim_C2_partial_failure_counterexample :
    generateImportedClassToJarMaps
        [{ projectPath := ("/repo").data, groupId := some (("com.acme").data),
           projectJar := some (("app-1.0.jar").data), jdepsOutput := none }] = [] ∧
    (runJavaExtraction
        (generateImportedClassToJarMaps
          [{ projectPath := ("/repo").data, groupId := some (("com.acme").data),
             projectJar := some (("app-1.0.jar").data), jdepsOutput := none }])
        [("com.acme").data] (("/repo").data)
        [((("/repo/src/Main.java").data), ([] : List JavaRawImport))]).isOk = false := by
  constructor
  · rfl
  · rfl

/-- C2 (amended): a project whose manifest analysis fails (no jar found, or
external tool failure) is left out of the dependency-index map entirely while
other projects are still indexed; but when a non-ignored Java file then
resolves to a project without an index, `extractImports` throws and the whole
run aborts with an error, rather than continuing with fallback heuristics. -/
theorem claim_C2_partial_failure :
    (∀ projects : List JavaProject,
        (generateImportedClassToJarMaps projects).map (fun kv => kv.1) =
          (projects.filter
            (fun p => p.projectJar.isSome && p.jdepsOutput.isSome)).map
            (fun p => p.projectPath)) ∧
    (∀ (maps : List (Str × JarMap)) (groupIds : List Str) (repo : Str)
        (files : List (Str × List JavaRawImport)) (fp : Str)
        (recs : List JavaRawImport),
        (fp, recs) ∈ files →
        isIgnored fp javaExcludedDirectories javaExcludedFilePatterns = false →
        mapGet maps (findProjectPath fp (maps.map (fun kv => kv.1))) = none →
        (runJavaExtraction maps groupIds repo files).isOk = false) := by
  constructor
  · intro projects
    have h := generate_maps_keys projects []
    simpa using h
  · intro maps groupIds repo files fp recs hmem hign hmap
    exact run_aborts_of_missing_map maps groupIds repo files [] fp recs hmem hign hmap

/-- Witness for C2 at the concrete one-project failure scenario. -/
theorem claim_C2_partial_failure_witness :
    (runJavaExtraction [] [("com.acme").data] (("/repo").data)
      [((("/repo/src/Main.java").data), ([] : List JavaRawImport))]).isOk = false :=
  claim_C2_partial_failure.2 [] [("com.acme").data] (("/repo").data)
    [((("/repo/src/Main.java").data), ([] : List JavaRawImport))]
    (("/repo/src/Main.java").data) [] (by decide) (by decide) (by decide)

/-! ### Claim C3 -/

/-- C3: for `import static org.junit.jupiter.api.Assertions.*;` with no
matching dependency-index entry (no exact entry and no key extending the
target by a dotted segment), the emitted statement has library
`org.junit.jupiter.api`, entity `Assertions.*`, and both the `static` and
`wildcard` modifiers. -/
theorem claim_C3_wildcard_static_fallback :
    ∀ (m : JarMap) (rel pp full : Str),
      mapGet m (("org.junit.jupiter.api.Assertions").data) = none →
      (∀ kv ∈ m,
        ((("org.junit.jupiter.api.Assertions").data ++ [('.')]).isPrefixOf kv.1) = false) →
      ∃ st : ImportStatement,
        javaEmitStatement rel pp (("Java").data) [] m true true
          (("org.junit.jupiter.api.Assertions").data) full = some st ∧
        st.library = ("org.junit.jupiter.api").data ∧
        st.importedEntity = ("Assertions.*").data ∧
        ("static").data ∈ st.modifiers ∧ ("wildcard").data ∈ st.modifiers := by
  intro m rel pp full h1 h2
  have hfind : m.find?
      (fun kv =>
        ((("org.junit.jupiter.api.Assertions").data ++ [('.')]).isPrefixOf kv.1)) = none :=
    List.find?_eq_none.mpr (fun kv hkv => by
      show ¬ ((("org.junit.jupiter.api.Assertions").data ++ [('.')]).isPrefixOf kv.1 = true)
      rw [h2 kv hkv]
      exact Bool.false_ne_true)
  have hlib : getLibraryAndImportedEntity (("org.junit.jupiter.api.Assertions").data)
      true true m = ((("org.junit.jupiter.api").data), (("Assertions.*").data)) := by
    unfold getLibraryAndImportedEntity
    rw [h1]
    show (if true = true then _ else _) = _
    rw [if_pos rfl, hfind]
    decide
  refine ⟨{ file := rel, projectPath := pp,
            importedEntity := ("Assertions.*").data,
            modifiers := [("static").data, ("wildcard").data],
            language := ("Java").data,
            library := ("org.junit.jupiter.api").data,
            fullImport := full }, ?_, rfl, rfl, ?_, ?_⟩
  · unfold javaEmitStatement
    rw [hlib]
    rfl
  · show ("static").data ∈ [("static").data, ("wildcard").data]
    decide
  · show ("wildcard").data ∈ [("static").data, ("wildcard").data]
    decide

/-- Witness for C3 with an empty dependency index. -/
theorem claim_C3_wildcard_static_fallback_witness :
    ∃ st : ImportStatement,
      javaEmitStatement (("src/T.java").data) (("/repo").data) (("Java").data) [] []
        true true (("org.junit.jupiter.api.Assertions").data)
        (("import static org.junit.jupiter.api.Assertions.*;").data) = some st ∧
      st.library = ("org.junit.jupiter.api").data ∧
      st.importedEntity = ("Assertions.*").data ∧
      ("static").data ∈ st.modifiers ∧ ("wildcard").data ∈ st.modifiers :=
  claim_C3_wildcard_static_fallback [] (("src/T.java").data) (("/repo").data)
    (("import static org.junit.jupiter.api.Assertions.*;").data)
    (by decide) (by decide)

/-! ### Claim C4 -/

theorem find_first_max (p : Str → Bool) :
    ∀ (l : List Str) (c : Str), l.Pairwise lenGE → l.find? p = some c →
      ∀ x ∈ l, p x = true → x.length ≤ c.length := by
  intro l
  induction l with
  | nil => intro c _ hf; simp at hf
  | cons a t ih =>
      intro c hpw hf x hx hpx
      rcases List.pairwise_cons.mp hpw with ⟨ha, hpw2⟩
      cases hpa : p a
      · rw [List.find?_cons_of_neg _ (by simp [hpa])] at hf
        rcases List.mem_cons.mp hx with h | h
        · subst h; rw [hpx] at hpa; exact absurd hpa (by simp)
        · exact ih c hpw2 hf x h hpx
      · rw [List.find?_cons_of_pos _ (by simp [hpa])] at hf
        injection hf with hac
        subst hac
        rcases List.mem_cons.mp hx with h | h
        · subst h; exact Nat.le_refl _
        · exact ha x h

/-- C4: for a specifier with some candidate prefix present in the index,
`fallbackResolveImport` returns the index entry of a present candidate of
maximal length; concretely, `lodash/fp` against an index holding only
`lodash` resolves to `lodash@4.17.21`. -/
theorem claim_C4_longest_prefix_fallback :
    (∀ (spec : Str) (dm : List (Str × Str)) (c0 : Str),
        c0 ∈ candidatesFor spec → (mapGet dm c0).isSome = true →
        ∃ c, c ∈ candidatesFor spec ∧
          (∃ v, mapGet dm c = some v ∧ fallbackResolveImport spec dm = v) ∧
          ∀ d ∈ candidatesFor spec, (mapGet dm d).isSome = true →
            d.length ≤ c.length) ∧
    candidatesFor (("lodash/fp").data) = [("lodash").data, ("lodash/fp").data] ∧
    fallbackResolveImport (("lodash/fp").data)
        [((("lodash").data), (("lodash@4.17.21").data))] = ("lodash@4.17.21").data := by
  refine ⟨?_, by decide, by decide⟩
  intro spec dm c0 hc0 hc0some
  have hmem : c0 ∈ sortCandidatesByLen (candidatesFor spec) := by
    unfold sortCandidatesByLen
    exact (List.mem_insertionSort lenGE).mpr hc0
  have hissome : ((sortCandidatesByLen (candidatesFor spec)).find?
      (fun c => (mapGet dm c).isSome)).isSome := by
    rw [List.find?_isSome]
    exact ⟨c0, hmem, hc0some⟩
  rcases hfind : (sortCandidatesByLen (candidatesFor spec)).find?
      (fun c => (mapGet dm c).isSome) with _ | c
  · rw [hfind] at hissome; simp at hissome
  · have hpc0 := List.find?_some hfind
    have hpc : (mapGet dm c).isSome = true := hpc0
    rcases hget : mapGet dm c with _ | v
    · rw [hget] at hpc; simp at hpc
    · refine ⟨c, ?_, ⟨v, hget, ?_⟩, ?_⟩
      · have hmc := List.mem_of_find?_eq_some hfind
        unfold sortCandidatesByLen at hmc
        exact (List.mem_insertionSort lenGE).mp hmc
      · unfold fallbackResolveImport
        rw [hfind]
        show (mapGet dm c).getD [] = v
        rw [hget]
        rfl
      · intro d hd hdsome
        have hd2 : d ∈ sortCandidatesByLen (candidatesFor spec) := by
          unfold sortCandidatesByLen
          exact (List.mem_insertionSort lenGE).mpr hd
        have hsorted : (sortCandidatesByLen (candidatesFor spec)).Pairwise lenGE := by
          unfold sortCandidatesByLen
          exact List.sorted_insertionSort lenGE (candidatesFor spec)
        exact find_first_max _ _ c hsorted hfind d hd2 hdsome

/-- Witness for C4 at the concrete `lodash/fp` scenario. -/
theorem claim_C4_longest_prefix_fallback_witness :
    ∃ c, c ∈ candidatesFor (("lodash/fp").data) ∧
      (∃ v, mapGet [((("lodash").data), (("lodash@4.17.21").data))] c = some v ∧
        fallbackResolveImport (("lodash/fp").data)
          [((("lodash").data), (("lodash@4.17.21").data))] = v) ∧
      ∀ d ∈ candidatesFor (("lodash/fp").data),
        (mapGet [((("lodash").data), (("lodash@4.17.21").data))] d).isSome = true →
          d.length ≤ c.length :=
  claim_C4_longest_prefix_fallback.1 (("lodash/fp").data)
    [((("lodash").data), (("lodash@4.17.21").data))] (("lodash").data)
    (by decide) (by decide)

/-! ### Claim C5 -/

/-- C5 counterexample: for `import * as R from 'ramda'` the emitted modifiers
list is the single combined string `"wildcard, alias"`, so it does not
contain `"wildcard"` and `"alias"` as separate elements. -/
theorem claim_C5_namespace_import_counterexample :
    ((jsImportDeclEmit ([]) ([]) (("TypeScript").data)
        (("import * as R from ramda").data) [] [] (("ramda").data)
        [JsImportSpecifier.namespaceSpec (("R").data)]).map
      (fun st => st.modifiers) = some [("wildcard, alias").data]) ∧
    ¬ ((("wildcard").data ∈ [("wildcard, alias").data]) ∧
       (("alias").data ∈ [("wildcard, alias").data])) := by
  decide

/-- C5 (amended): the namespace import `import * as R from 'ramda'` yields
importedEntity `* as R` and a modifiers list whose single element is the
combined string `"wildcard, alias"` (not two separate modifier strings). -/
theorem claim_C5_namespace_import :
    jsImportDeclEmit ([]) ([]) (("TypeScript").data)
        (("import * as R from ramda").data) [] [] (("ramda").data)
        [JsImportSpecifier.namespaceSpec (("R").data)] =
      some
        { file := []
          projectPath := []
          importedEntity := ("* as R").data
          modifiers := [("wildcard, alias").data]
          language := ("TypeScript").data
          library := noMatchSentinel
          fullImport := ("import * as R from ramda").data } := by
  decide

/-! ### Claim C9 -/

/-- C9: the built-in test strips an optional `node:` prefix before looking
the name up in the fixed registry, so `require('node:fs')` and
`require('fs')` are classified identically and both discarded. -/
theorem claim_C9_node_builtin :
    (∀ s : Str, isNodeModule ((("node:").data) ++ s) = nodeModulesList.contains s) ∧
    isNodeModule (("node:fs").data) = true ∧
    isNodeModule (("fs").data) = true ∧
    jsRequireEmit ([]) ([]) (("JavaScript").data) (("require(node:fs)").data)
        [] [] (("node:fs").data) = none ∧
    jsRequireEmit ([]) ([]) (("JavaScript").data) (("require(fs)").data)
        [] [] (("fs").data) = none := by
  refine ⟨?_, by decide, by decide, by decide, by decide⟩
  intro s
  unfold isNodeModule
  rw [if_pos (List.isPrefixOf_iff_prefix.mpr (List.prefix_append (("node:").data) s))]
  have hdrop : ((("node:").data) ++ s).drop 5 = s := List.drop_left (("node:").data) s
  rw [hdrop]

/-! ### Claim C6 -/

theorem isPrefixOf_append_self (p s : Str) : p.isPrefixOf (p ++ s) = true :=
  List.isPrefixOf_iff_prefix.mpr (List.prefix_append p s)

theorem takeWhile_all_append (q : Char → Bool) :
    ∀ (xs : Str) (y : Char) (ys : Str), (∀ c ∈ xs, q c = true) → q y = false →
      (xs ++ y :: ys).takeWhile q = xs := by
  intro xs
  induction xs with
  | nil =>
      intro y ys _ hy
      simp [List.takeWhile_cons, hy]
  | cons x xs ih =>
      intro y ys hall hy
      have hx : q x = true := hall x (List.mem_cons_self x xs)
      simp only [List.cons_append, List.takeWhile_cons, hx, if_true]
      rw [ih y ys (fun c hc => hall c (List.mem_cons_of_mem _ hc)) hy]

theorem findGroupIdIn_of_match :
    ∀ (s : Str) (g : Str), matchGroupIdAt s = some g → findGroupIdIn s = some g := by
  intro s g h
  rcases s with _ | ⟨c, cs⟩
  · have hnone : matchGroupIdAt ([] : Str) = none := rfl
    rw [hnone] at h
    exact Option.noConfusion h
  · unfold findGroupIdIn
    rw [h]

/-- C6: `findGroupId` removes the parent declaration block before matching,
so a manifest whose parent block (declaring `org.springframework.boot`)
precedes its own group id derives the project's own group id — concretely
`com.acme.core`, never the parent's. -/
theorem claim_C6_parent_exclusion :
    (∀ own : Str, own ≠ [] → own.all isWordDotChar = true →
        findGroupId (pomWithParent own) = some own) ∧
    findGroupId (pomWithParent (("com.acme.core").data)) =
      some (("com.acme.core").data) ∧
    findGroupId (pomWithParent (("com.acme.core").data)) ≠
      some (("org.springframework.boot").data) := by
  have main : ∀ own : Str, own ≠ [] → own.all isWordDotChar = true →
      findGroupId (pomWithParent own) = some own := by
    intro own hne hall
    have hie : own.isEmpty = false := by
      rcases own with _ | ⟨c, cs⟩
      · exact absurd rfl hne
      · rfl
    have hrm : removeParentBlock (pomWithParent own) =
        (("<groupId>").data) ++ (own ++ (("</groupId>").data)) := rfl
    have hcc : (("</groupId>").data).isPrefixOf (("</groupId>").data) = true := by
      have h := isPrefixOf_append_self (("</groupId>").data) []
      rwa [List.append_nil] at h
    have htw : (own ++ (("</groupId>").data)).takeWhile isWordDotChar = own := by
      have hclose : (("</groupId>").data) = '<' :: ("/groupId>").data := rfl
      rw [hclose]
      exact takeWhile_all_append isWordDotChar own '<' (("/groupId>").data)
        (fun c hc => List.all_eq_true.mp hall c hc) (by decide)
    have hmatch : matchGroupIdAt
        ((("<groupId>").data) ++ (own ++ (("</groupId>").data))) = some own := by
      unfold matchGroupIdAt
      rw [if_pos (isPrefixOf_append_self _ _)]
      rw [List.drop_left]
      rw [htw, hie]
      simp only [Bool.false_eq_true, if_false]
      rw [List.drop_left]
      rw [if_pos hcc]
    unfold findGroupId
    rw [hrm]
    exact findGroupIdIn_of_match _ own hmatch
  refine ⟨main, main (("com.acme.core").data) (by decide) (by decide), ?_⟩
  rw [main (("com.acme.core").data) (by decide) (by decide)]
  decide

/-- Witness for C6 at the concrete `com.acme.core` manifest. -/
theorem claim_C6_parent_exclusion_witness :
    findGroupId (pomWithParent (("com.acme.core").data)) =
      some (("com.acme.core").data) :=
  claim_C6_parent_exclusion.1 (("com.acme.core").data) (by decide) (by decide)

/-! ### Claim C7 -/

theorem mapSet_keys_mem {V : Type} (m : List (Str × V)) (k : Str) (v : V) (k0 : Str)
    (h : k0 ∈ m.map (fun kv => kv.1)) :
    k0 ∈ (mapSet m k v).map (fun kv => kv.1) := by
  unfold mapSet
  by_cases hc : ((m.map (fun kv => kv.1)).contains k) = true
  · rw [if_pos hc, List.map_map]
    rcases List.mem_map.mp h with ⟨kv, hkv, hfst⟩
    refine List.mem_map.mpr ⟨kv, hkv, ?_⟩
    show (if kv.1 == k then (k, v) else kv).1 = k0
    by_cases hb : (kv.1 == k) = true
    · rw [if_pos hb]
      rw [← beq_iff_eq.mp hb]
      exact hfst
    · rw [if_neg hb]
      exact hfst
  · rw [if_neg hc, List.map_append]
    exact List.mem_append.mpr (Or.inl h)

theorem mapSet_key_mem {V : Type} (m : List (Str × V)) (k : Str) (v : V) :
    k ∈ (mapSet m k v).map (fun kv => kv.1) := by
  unfold mapSet
  by_cases hc : ((m.map (fun kv => kv.1)).contains k) = true
  · rw [if_pos hc, List.map_map]
    have hk : k ∈ m.map (fun kv => kv.1) := by
      have hc2 : List.elem k (m.map (fun kv => kv.1)) = true := hc
      rw [List.elem_eq_mem] at hc2
      exact of_decide_eq_true hc2
    rcases List.mem_map.mp hk with ⟨kv, hkv, hfst⟩
    refine List.mem_map.mpr ⟨kv, hkv, ?_⟩
    show (if kv.1 == k then (k, v) else kv).1 = k
    rw [if_pos (beq_iff_eq.mpr hfst)]
  · rw [if_neg hc, List.map_append]
    refine List.mem_append.mpr (Or.inr ?_)
    show k ∈ [k]
    exact List.mem_singleton.mpr rfl

theorem processJdepsLine_keys_mono (g : Option Str) (jar : Str) (m : JarMap)
    (line : Str) (k0 : Str) (h : k0 ∈ m.map (fun kv => kv.1)) :
    k0 ∈ (processJdepsLine g jar m line).map (fun kv => kv.1) := by
  unfold processJdepsLine
  rcases hp : parseJdepsLine line with _ | ⟨s, ic, j⟩
  · exact h
  · show k0 ∈ (if jdepsSkipCondition g jar s j = true then m
        else mapSet m ic { jar := normalizeJarCoordinate j,
                           entity := classLastSegment ic }).map (fun kv => kv.1)
    by_cases hcond : jdepsSkipCondition g jar s j = true
    · rw [if_pos hcond]; exact h
    · rw [if_neg hcond]
      exact mapSet_keys_mem m ic _ k0 h

theorem foldl_process_keys_mono (g : Option Str) (jar : Str) :
    ∀ (lines : List Str) (m : JarMap) (k0 : Str),
      k0 ∈ m.map (fun kv => kv.1) →
      k0 ∈ ((lines.foldl (processJdepsLine g jar) m).map (fun kv => kv.1)) := by
  intro lines
  induction lines with
  | nil => intro m k0 h; exact h
  | cons a t ih =>
      intro m k0 h
      rw [List.foldl_cons]
      exact ih _ k0 (processJdepsLine_keys_mono g jar m a k0 h)

theorem buildJarMap_foldl_mem (g : Option Str) (jar : Str) :
    ∀ (lines : List Str) (m : JarMap) (line s ic j : Str),
      line ∈ lines → parseJdepsLine line = some (s, ic, j) →
      jdepsSkipCondition g jar s j = false →
      ic ∈ ((lines.foldl (processJdepsLine g jar) m).map (fun kv => kv.1)) := by
  intro lines
  induction lines with
  | nil => intro m line s ic j hmem; simp at hmem
  | cons a t ih =>
      intro m line s ic j hmem hparse hkeep
      rw [List.foldl_cons]
      rcases List.mem_cons.mp hmem with h | h
      · subst h
        have hstep : processJdepsLine g jar m line = mapSet m ic
            { jar := normalizeJarCoordinate j, entity := classLastSegment ic } := by
          unfold processJdepsLine
          rw [hparse]
          show (if jdepsSkipCondition g jar s j = true then m
              else mapSet m ic { jar := normalizeJarCoordinate j,
                                 entity := classLastSegment ic }) = _
          rw [if_neg (by rw [hkeep]; exact Bool.false_ne_true)]
        rw [hstep]
        exact foldl_process_keys_mono g jar t _ ic (mapSet_key_mem m ic _)
      · exact ih _ line s ic j h hparse hkeep

theorem jdepsSkipCondition_eq_true {g : Option Str} {jar s j : Str}
    (h : j = jar ∨ ∃ gid, g = some gid ∧ gid.isPrefixOf s = false) :
    jdepsSkipCondition g jar s j = true := by
  unfold jdepsSkipCondition
  rcases h with h | ⟨gid, hg, hp⟩
  · rw [beq_iff_eq.mpr h]
    exact Bool.true_or _
  · subst hg
    show ((j == jar) || (! gid.isPrefixOf s)) = true
    rw [hp]
    exact Bool.or_true _

theorem jdepsSkipCondition_eq_false {g : Option Str} {jar s j : Str}
    (h1 : j ≠ jar) (h2 : ∀ gid, g = some gid → gid.isPrefixOf s = true) :
    jdepsSkipCondition g jar s j = false := by
  unfold jdepsSkipCondition
  rcases g with _ | gid
  · show ((j == jar) || false) = false
    rw [beq_eq_false_iff_ne.mpr h1]
    rfl
  · show ((j == jar) || (! gid.isPrefixOf s)) = false
    rw [beq_eq_false_iff_ne.mpr h1, h2 gid rfl]
    rfl

/-- C7: when building a project's dependency index from the jdeps report,
every parsed line whose imported archive equals the project's own archive or
whose source class does not start with the project's group id contributes
nothing, and every other parsed line gets its imported class indexed. -/
theorem claim_C7_index_filtering :
    (∀ (g : Option Str) (jar : Str) (m : JarMap) (line s ic j : Str),
        parseJdepsLine line = some (s, ic, j) →
        (j = jar ∨ (∃ gid, g = some gid ∧ gid.isPrefixOf s = false)) →
        processJdepsLine g jar m line = m) ∧
    (∀ (g : Option Str) (jar : Str) (lines : List Str) (line s ic j : Str),
        line ∈ lines → parseJdepsLine line = some (s, ic, j) →
        j ≠ jar → (∀ gid, g = some gid → gid.isPrefixOf s = true) →
        ic ∈ ((buildJarMap g jar lines).map (fun kv => kv.1))) := by
  constructor
  · intro g jar m line s ic j hparse hor
    unfold processJdepsLine
    rw [hparse]
    show (if jdepsSkipCondition g jar s j = true then m
        else mapSet m ic { jar := normalizeJarCoordinate j,
                           entity := classLastSegment ic }) = m
    rw [if_pos (jdepsSkipCondition_eq_true hor)]
  · intro g jar lines line s ic j hmem hparse hjar hgid
    unfold buildJarMap
    exact buildJarMap_foldl_mem g jar lines [] line s ic j hmem hparse
      (jdepsSkipCondition_eq_false hjar hgid)

/-- Witness for C7 at concrete jdeps report lines. -/
theorem claim_C7_index_filtering_witness :
    (processJdepsLine (some (("com.acme").data)) (("app-1.0.jar").data) []
        (("com.acme.Main -> com.acme.Util app-1.0.jar.jar").data) = []) ∧
    (("org.lib.Baz").data ∈
      ((buildJarMap (some (("com.acme").data)) (("app-1.0.jar").data)
          [("com.acme.Main -> org.lib.Baz lib-1.2.jar").data]).map (fun kv => kv.1))) :=
  ⟨claim_C7_index_filtering.1 (some (("com.acme").data)) (("app-1.0.jar").data) []
      (("com.acme.Main -> com.acme.Util app-1.0.jar.jar").data)
      (("com.acme.Main").data) (("com.acme.Util").data) (("app-1.0.jar").data)
      (by decide) (Or.inl rfl),
   claim_C7_index_filtering.2 (some (("com.acme").data)) (("app-1.0.jar").data)
      [("com.acme.Main -> org.lib.Baz lib-1.2.jar").data]
      (("com.acme.Main -> org.lib.Baz lib-1.2.jar").data)
      (("com.acme.Main").data) (("org.lib.Baz").data) (("lib-1.2").data)
      (by decide) (by decide) (by decide)
      (fun gid hg => by
        injection hg with h
        subst h
        decide)⟩

end ImportFinder
